import Mathlib

/-!
Verification of redilex, a redis ORM with single-field lexical indexing.

This file shallowly embeds the query-compilation and index-maintenance core of
the repository:

* src/lib/helpers.js   — key/index codec, model seeding, pruning
* src/lib/queries.js   — command builders (create, index, remove, update batches)
* src/lib/schemas.js   — joi validation schemas, modelled as boolean predicates
* src/lib/index.js and the unnamed createModel variant — the operation
  orchestrator (create / update / search pipelines)
* src/index.js         — the monolithic sibling implementation, the source of
  the SYMBOLS table and of the mutable field flag

JavaScript data is modelled explicitly: scalar values are JSVal (strings,
numbers, booleans and undefined, with JS truthiness), objects are ordered
association lists, and a thrown exception or failed callback is an
Except.error.  The redis boundary of spec section 6 (hmset / del / zadd /
zrem / hgetall / zrangebylex under MULTI) is modelled by a Store value and a
command interpreter; read commands are modelled as direct reads of the store.
-/

set_option maxRecDepth 8000

namespace Redilex

/-- JavaScript scalar values stored in redilex hashes.  vUndef models the
JavaScript undefined value, which appears when an absent property is read. -/
inductive JSVal where
  | vStr (s : String)
  | vNum (n : Int)
  | vBool (b : Bool)
  | vUndef
deriving DecidableEq, Repr

/-- JavaScript truthiness, as used by the sources in `if (data[key])` and in
`if (hash[prop])`: the empty string, zero, false and undefined are falsy. -/
def JSVal.truthy : JSVal → Bool
  | .vStr s => s != ""
  | .vNum n => n != 0
  | .vBool b => b
  | .vUndef => false

/-- JavaScript string coercion String(value), as applied by the codec. -/
def JSVal.toStr : JSVal → String
  | .vStr s => s
  | .vNum n => toString n
  | .vBool b => if b then "true" else "false"
  | .vUndef => "undefined"

/-- A JavaScript object: an ordered association list of named scalar fields. -/
abbrev Obj := List (String × JSVal)

/-- Property read l[k]: the first binding of k, or none for undefined. -/
def lookupA {α : Type} : List (String × α) → String → Option α
  | [], _ => none
  | kv :: rest, k => if kv.1 = k then some kv.2 else lookupA rest k

/-- Property write l[k] = v: updates the binding in place (JS objects keep the
insertion order of keys) or appends a new binding. -/
def setA {α : Type} : List (String × α) → String → α → List (String × α)
  | [], k, v => [(k, v)]
  | kv :: rest, k, v => if kv.1 = k then (k, v) :: rest else kv :: setA rest k v

/-- Key deletion, used by the del command. -/
def removeA {α : Type} (l : List (String × α)) (k : String) : List (String × α) :=
  l.filter (fun kv => kv.1 != k)

/-- One field descriptor of a model, after formatModel has applied defaults.
seed holds the value the (possibly wrapped) generator returns on the call
being modelled, or none when the field has no seed; mutable comes from the
src/index.js descriptor (makeProp / MODEL) and lexical, validate and
updateValidate from src/lib (formatProp / formatModel).  The opaque joi
validators are modelled as predicates on the looked-up value, none meaning
the key is absent (joi required() fails exactly on an absent key). -/
structure FieldDesc where
  seed : Option JSVal
  mutable : Bool
  lexical : Bool
  validate : Option JSVal → Bool
  updateValidate : Option JSVal → Bool

/-- A formatted model: ordered mapping from field name to descriptor. -/
abbrev Model := List (String × FieldDesc)

/-- The separator byte, from the SYMBOLS table of src/index.js. -/
def SYMBOLS.sep : String := ":"

/-- The index sub-namespace marker, from the SYMBOLS table of src/index.js. -/
def SYMBOLS.idx : String := "i"

/-- The ASCII case-folding pairs behind String.prototype.toLowerCase.  The
sources only rely on the ASCII mapping; no character case-folds to the
separator, which is what the codec proofs use. -/
def lowerPairs : List (Char × Char) :=
  [('A', 'a'), ('B', 'b'), ('C', 'c'), ('D', 'd'), ('E', 'e'), ('F', 'f'),
   ('G', 'g'), ('H', 'h'), ('I', 'i'), ('J', 'j'), ('K', 'k'), ('L', 'l'),
   ('M', 'm'), ('N', 'n'), ('O', 'o'), ('P', 'p'), ('Q', 'q'), ('R', 'r'),
   ('S', 's'), ('T', 't'), ('U', 'u'), ('V', 'v'), ('W', 'w'), ('X', 'x'),
   ('Y', 'y'), ('Z', 'z')]

/-- Case-fold one character as toLowerCase does. -/
def toLowerCase (c : Char) : Char :=
  ((lowerPairs.find? (fun p => p.1 == c)).map Prod.snd).getD c

/-- The character class matched by the regular expression \s in JavaScript. -/
def isJsSpace (c : Char) : Bool :=
  c ∈ [' ', '\t', '\n', '\x0b', '\x0c', '\r', '\u00a0', '\u1680', '\u2028',
       '\u2029', '\u202f', '\u205f', '\u3000', '\ufeff']
  || ('\u2000' ≤ c && c ≤ '\u200a')

/-- The character class of the stripping regular expression /[\s+:]/g used by
formatIndex: whitespace, the plus sign and the separator. -/
def strippedChar (c : Char) : Bool :=
  isJsSpace c || c == '+' || c == ':'

/-- Normalization applied to an indexed value by formatIndex
(src/lib/helpers.js, also makeInd in src/index.js): stringify, delete every
character of /[\s+:]/g, then lower-case. -/
def normalizeValue (s : String) : String :=
  String.mk ((s.data.filter (fun c => !strippedChar c)).map toLowerCase)

/-- formatIndex (src/lib/helpers.js line 27): the index token
normalize(String(value)) ++ separator ++ id. -/
def formatIndex (value : JSVal) (id : String) : String :=
  normalizeValue (JSVal.toStr value) ++ SYMBOLS.sep ++ id

/-- Index of the first separator character, as String.prototype.indexOf
computes it (none models the -1 result). -/
def sepIdx : List Char → Option Nat
  | [] => none
  | c :: rest => if c = ':' then some 0 else (sepIdx rest).map (· + 1)

/-- parseIndex (src/lib/helpers.js line 91): value.substring(indexOf(sep) + 1).
When the separator is absent, indexOf yields -1 and substring(0) returns the
whole string. -/
def parseIndex (value : String) : String :=
  match sepIdx value.data with
  | some i => String.mk (value.data.drop (i + 1))
  | none => String.mk (value.data.drop 0)

/-- formatKey (src/lib/helpers.js line 32): name:id, or name:sub:id with a
sub-namespace.  The JavaScript if (sub) test is a truthiness test, so an
empty sub string selects the short form. -/
def formatKey (name : String) (id : String) (sub : Option String) : String :=
  match sub with
  | some s =>
    if s = "" then name ++ SYMBOLS.sep ++ id
    else name ++ SYMBOLS.sep ++ s ++ SYMBOLS.sep ++ id
  | none => name ++ SYMBOLS.sep ++ id

/-- The expression hash.id coerced to a string for key building: an absent id
reads as undefined and sprintf renders it as the text undefined. -/
def hashId (hash : Obj) : String :=
  JSVal.toStr ((lookupA hash "id").getD JSVal.vUndef)

/-- One iteration of the seedHash loop (src/lib/helpers.js line 74) for field
kv: if (data[key]) keep the caller value, else if (model[key].seed) call the
generator, else leave the field out.  Both tests are truthiness tests. -/
def seedField (data : Obj) (kv : String × FieldDesc) : Option (String × JSVal) :=
  match lookupA data kv.1 with
  | some v =>
    if JSVal.truthy v then some (kv.1, v)
    else
      match kv.2.seed with
      | some s => some (kv.1, s)
      | none => none
  | none =>
    match kv.2.seed with
    | some s => some (kv.1, s)
    | none => none

/-- seedHash (src/lib/helpers.js line 74): builds cleanHash by iterating the
model keys in order.  Object.keys yields each model key once, so assigning
cleanHash[key] per key in order is the same as collecting the kept fields. -/
def seedHash (model : Model) (data : Obj) : Obj :=
  model.filterMap (seedField data)

/-- seedHashes (src/lib/helpers.js line 86): seedHash mapped over the batch. -/
def seedHashes (model : Model) (data : List Obj) : List Obj :=
  data.map (seedHash model)

/-- getIndices (src/lib/helpers.js line 95): the lexical field names of the
model, in model order. -/
def getIndices (model : Model) : List String :=
  model.filterMap (fun kv => if kv.2.lexical then some kv.1 else none)

/-- pruneObject (src/lib/helpers.js line 102): for every key of the first
object, read that property of the second; an absent property reads as
undefined and is stored as such. -/
def pruneObject (model : Obj) (prunee : Obj) : Obj :=
  model.map (fun kv => (kv.1, (lookupA prunee kv.1).getD JSVal.vUndef))

/-- The primitive store commands the compiler emits (spec section 6).  The
sources build them as argument arrays such as a zadd with fixed score 0;
here each verb is a constructor carrying its arguments. -/
inductive Cmd where
  | hmset (key : String) (fields : Obj)
  | del (key : String)
  | zadd (key : String) (token : String)
  | zrem (key : String) (token : String)
deriving DecidableEq, Repr

/-- A compiled batch: the command list and the ids it pertains to. -/
structure Image where
  query : List Cmd
  ids : List String
deriving DecidableEq, Repr

/-- Failure outcomes surfaced through callbacks or thrown synchronously.
typeError models the JavaScript TypeError raised when a non-function value is
called; validationError a joi schema failure; notFound the error raised by
getToUpdate (spec kind NotFoundError) with the message about updating a
non-existent hash. -/
inductive JsErr where
  | typeError
  | validationError
  | notFound
deriving DecidableEq, Repr

/-- index (src/lib/queries.js line 13): a zadd of the encoded token on the
field index key name:i:prop, turned into a zrem (dropping the score) when
the remove flag is set. -/
def queries.index (name prop id : String) (value : JSVal) (remove : Bool) : Cmd :=
  if remove then Cmd.zrem (formatKey name prop (some SYMBOLS.idx)) (formatIndex value id)
  else Cmd.zadd (formatKey name prop (some SYMBOLS.idx)) (formatIndex value id)

/-- create (src/lib/queries.js line 25): an hmset of every field of the hash
under the record key. -/
def queries.create (name id : String) (hash : Obj) : Cmd :=
  Cmd.hmset (formatKey name id none) hash

/-- remove (src/lib/queries.js line 36): the del command for a record key.
Unreachable from createAndIndex, whose own parameter shadows this name. -/
def queries.remove (name id : String) : Cmd :=
  Cmd.del (formatKey name id none)

/-- multiIndex (src/lib/queries.js line 46): one index command per lexical
field of the model whose value on the hash is truthy, in model order. -/
def queries.multiIndex (name : String) (model : Model) (hash : Obj) (remove : Bool) :
    List Cmd :=
  (getIndices model).filterMap (fun prop =>
    match lookupA hash prop with
    | some v =>
      if JSVal.truthy v then some (queries.index name prop (hashId hash) v remove)
      else none
    | none => none)

/-- createAndIndex (src/lib/queries.js line 40).  In the source the fourth
parameter is itself named remove and shadows the module-level remove command
builder, so the truthy branch evaluates remove(name, hash.id) with remove
bound to the boolean true: calling a boolean throws a TypeError before any
command is produced.  The falsy branch builds the hmset command followed by
the index additions, with the same (falsy) flag passed to multiIndex. -/
def queries.createAndIndex (name : String) (model : Model) (hash : Obj)
    (removeFlag : Bool) : Except JsErr (List Cmd) :=
  if removeFlag then Except.error JsErr.typeError
  else Except.ok (queries.create name (hashId hash) hash ::
    queries.multiIndex name model hash false)

/-- multiCreate loop body (src/lib/queries.js line 57): concatenates the
createAndIndex commands of each hash; a thrown exception propagates. -/
def queries.multiCreateAux (name : String) (model : Model) :
    List Obj → Except JsErr (List Cmd)
  | [] => Except.ok []
  | hash :: rest =>
    match queries.createAndIndex name model hash false with
    | Except.error e => Except.error e
    | Except.ok q =>
      match queries.multiCreateAux name model rest with
      | Except.error e => Except.error e
      | Except.ok qs => Except.ok (q ++ qs)

/-- multiCreate (src/lib/queries.js line 57): the compiled create batch plus
the id list, one id per input hash in order. -/
def queries.multiCreate (name : String) (model : Model) (data : List Obj) :
    Except JsErr Image :=
  match queries.multiCreateAux name model data with
  | Except.error e => Except.error e
  | Except.ok q => Except.ok { query := q, ids := data.map hashId }

/-- multiRemove (src/lib/queries.js line 67): createAndIndex with the remove
flag set for every fetched hash; the parameter shadowing in createAndIndex
makes the first iteration throw. -/
def queries.multiRemove (name : String) (model : Model) :
    List Obj → Except JsErr (List Cmd)
  | [] => Except.ok []
  | hash :: rest =>
    match queries.createAndIndex name model hash true with
    | Except.error e => Except.error e
    | Except.ok q =>
      match queries.multiRemove name model rest with
      | Except.error e => Except.error e
      | Except.ok qs => Except.ok (q ++ qs)

/-- multiUpdate loop body (src/lib/queries.js line 84), over the positionally
paired new and old records: prune the old record to the keys of the new hash,
emit the createAndIndex commands of the new hash, then the index retractions
computed from the pruned old record. -/
def queries.multiUpdateAux (name : String) (model : Model) :
    List (Obj × Obj) → Except JsErr (List Cmd)
  | [] => Except.ok []
  | (hash, old) :: rest =>
    match queries.createAndIndex name model hash false with
    | Except.error e => Except.error e
    | Except.ok q =>
      match queries.multiUpdateAux name model rest with
      | Except.error e => Except.error e
      | Except.ok qs =>
        Except.ok (q ++ (queries.multiIndex name model (pruneObject hash old) true ++ qs))

/-- multiUpdate (src/lib/queries.js line 81): the compiled update batch and
the id list.  data and oldData are aligned by position; the orchestrator
fetches oldData from the very ids of data, so both have the same length. -/
def queries.multiUpdate (name : String) (model : Model) (data oldData : List Obj) :
    Except JsErr Image :=
  match queries.multiUpdateAux name model (data.zip oldData) with
  | Except.error e => Except.error e
  | Except.ok q => Except.ok { query := q, ids := data.map hashId }

/-- The boundary store of spec section 6: hash records by key and sorted-set
member lists by key.  Sorted sets are kept as duplicate-free token lists;
lexical order is imposed when a range is read. -/
structure Store where
  hashes : List (String × Obj)
  zsets : List (String × List String)
deriving DecidableEq, Repr

/-- The empty store. -/
def Store.empty : Store := { hashes := [], zsets := [] }

/-- The hash at a key, or the empty hash (hgetall of a missing key). -/
def hashGetD (st : Store) (key : String) : Obj :=
  (lookupA st.hashes key).getD []

/-- ZADD member insertion: adding a present member only refreshes its score. -/
def zinsert (l : List String) (t : String) : List String :=
  if l.contains t then l else l ++ [t]

/-- One primitive write command against the store: HMSET replaces the named
fields keeping the others, DEL drops the record, ZADD and ZREM edit the
member set of a sorted set. -/
def runCmd (st : Store) : Cmd → Store
  | Cmd.hmset key fields =>
    let merged := fields.foldl (fun h kv => setA h kv.1 kv.2) (hashGetD st key)
    { st with hashes := setA st.hashes key merged }
  | Cmd.del key => { st with hashes := removeA st.hashes key }
  | Cmd.zadd key token =>
    let zs := zinsert ((lookupA st.zsets key).getD []) token
    { st with zsets := setA st.zsets key zs }
  | Cmd.zrem key token =>
    let zs := ((lookupA st.zsets key).getD []).filter (fun t => t != token)
    { st with zsets := setA st.zsets key zs }

/-- Atomic execution of a batch: the commands apply in order as one unit. -/
def runCmds (st : Store) : List Cmd → Store
  | [] => st
  | c :: rest => runCmds (runCmd st c) rest

/-- Executing queries.multiGet under MULTI: one hgetall per id; a missing
record comes back as an absent marker (the node redis client yields null). -/
def multiGetRun (st : Store) (name : String) (ids : List String) : List (Option Obj) :=
  ids.map (fun i => lookupA st.hashes (formatKey name i none))

/-- Byte-wise lexicographic order on tokens, as redis compares sorted-set
members.  The tokens here are ASCII plus the 0xff sentinel, where code-point
order and UTF-8 byte order agree. -/
def lexLe : List Char → List Char → Bool
  | [], _ => true
  | _ :: _, [] => false
  | a :: as, b :: bs =>
    if a.val < b.val then true
    else if b.val < a.val then false
    else lexLe as bs

/-- Order on token strings. -/
def strLe (a b : String) : Bool := lexLe a.data b.data

/-- Redis lex bound parsing: a leading left bracket marks an inclusive bound,
the only bound form the sources emit. -/
def stripBound (b : String) : String :=
  match b.data with
  | '[' :: rest => String.mk rest
  | _ => b

/-- Insertion into a lexically sorted list. -/
def insertLex (t : String) : List String → List String
  | [] => [t]
  | u :: rest => if strLe t u then t :: u :: rest else u :: insertLex t rest

/-- Lexical sort, the order in which ZRANGEBYLEX returns members. -/
def sortLex : List String → List String
  | [] => []
  | t :: rest => insertLex t (sortLex rest)

/-- ZRANGEBYLEX key min max: the members between the two inclusive bounds, in
lexical order; a missing key is an empty set. -/
def zrangebylexRun (st : Store) (key lo hi : String) : List String :=
  sortLex (((lookupA st.zsets key).getD []).filter
    (fun t => strLe (stripBound lo) t && strLe t (stripBound hi)))

/-- Modelled from the spec: helpers.testArray is called by getToUpdate of the
unnamed createModel variant but is absent from src/lib/helpers.js.  Per the
spec, the update pipeline fails when the read-before-write fetch returns an
absent marker for any referenced id, so testArray reports whether the fetched
current-record array contains an absent marker. -/
def testArray (current : List (Option Obj)) : Bool :=
  current.any (fun o => o.isNone)

/-- One record against the per-field joi schema assembled by schemas.create
(src/lib/schemas.js line 36): every declared field checked by its create-time
or update-time validator, and no undeclared key allowed (the joi default). -/
def recordCheck (model : Model) (forUpdate : Bool) (rec : Obj) : Bool :=
  model.all (fun kv =>
    (if forUpdate then kv.2.updateValidate else kv.2.validate) (lookupA rec kv.1))
  && rec.all (fun kv => (lookupA model kv.1).isSome)

/-- The array schema joi.array().min(1).items(...) wrapped around the record
schema (src/lib/index.js lines 84 and 85). -/
def schemaCheck (model : Model) (forUpdate : Bool) (data : List Obj) : Bool :=
  decide (1 ≤ data.length) && data.all (recordCheck model forUpdate)

/-- The create pipeline (src/lib/index.js line 112, identical in the unnamed
variant): seed the wrapped input, validate it — against updateSchema in the
source, although createSchema is built one line earlier — then compile with
multiCreate and execute the image, returning the new id list.  The optional
preCreate hook is not configured. -/
def api.create (name : String) (model : Model) (st : Store) (data : List Obj) :
    Except JsErr (Store × List String) :=
  let seeded := seedHashes model data
  if !(schemaCheck model true seeded) then Except.error JsErr.validationError
  else
    match queries.multiCreate name model seeded with
    | Except.error e => Except.error e
    | Except.ok image => Except.ok (runCmds st image.query, image.ids)

/-- The update pipeline of the unnamed createModel variant: validate against
updateSchema, fetch the current records of the referenced ids, fail with the
non-existent-hash error when any is absent (getToUpdate via testArray), else
compile with multiUpdate and execute the image.  The preUpdate hook is not
configured.  An error before execution leaves the store untouched, which the
result type makes explicit: only the ok branch carries a new store. -/
def api.update (name : String) (model : Model) (st : Store) (data : List Obj) :
    Except JsErr (Store × List String) :=
  if !(schemaCheck model true data) then Except.error JsErr.validationError
  else
    let current := multiGetRun st name (data.map hashId)
    if testArray current then Except.error JsErr.notFound
    else
      match queries.multiUpdate name model data (current.map (fun o => o.getD [])) with
      | Except.error e => Except.error e
      | Except.ok image => Except.ok (runCmds st image.query, image.ids)

/-- toSearch (src/lib/index.js line 52, same in the other variants): the
range bounds are built from the raw search term — start is a left bracket
plus the term, end appends the 0xff sentinel — and the key is the field
index key. -/
def toSearch (name field term : String) : String × String × String :=
  let start := "[" ++ term
  let stop := start ++ "\xff"
  (formatKey name field (some SYMBOLS.idx), start, stop)

/-- The search pipeline without the optional get step: range-read the index
and decode each token to an id with parseIndex. -/
def api.search (name : String) (st : Store) (field term : String) : List String :=
  let ks := toSearch name field term
  (zrangebylexRun st ks.1 ks.2.1 ks.2.2).map parseIndex

/-- Whether a command is a sorted-set edit (used to show that index commands
never touch the hash data). -/
def isZop : Cmd → Bool
  | Cmd.zadd _ _ => true
  | Cmd.zrem _ _ => true
  | _ => false

/-- The id descriptor of the default MODEL after formatModel, with the shortid
generator fixed to the value it yields on the modelled run. -/
def fdId : FieldDesc :=
  { seed := some (JSVal.vStr "a"), mutable := false, lexical := false,
    validate := fun o => o.isSome, updateValidate := fun o => o.isSome }

/-- The created descriptor of the default MODEL (lexical, seeded by Date.now,
here fixed to the timestamp 5; required at create time, optional on update). -/
def fdCreated : FieldDesc :=
  { seed := some (JSVal.vNum 5), mutable := false, lexical := true,
    validate := fun o => o.isSome, updateValidate := fun _ => true }

/-- A user field name marked lexical with the default create-time validator
joi.any().required() and default update-time validator joi.any(). -/
def fdName : FieldDesc :=
  { seed := none, mutable := false, lexical := true,
    validate := fun o => o.isSome, updateValidate := fun _ => true }

/-- The formatted demo model of a user model with one lexical field name,
merged by formatModel with the default id and created fields. -/
def demoModel : Model := [( "id", fdId), ( "created", fdCreated), ( "name", fdName)]

/-- The store produced by create with input name bob on the demo model. -/
def c1afterCreate : Store :=
  match api.create "m" demoModel Store.empty [[( "name", JSVal.vStr "bob")]] with
  | Except.ok (st, _) => st
  | Except.error _ => Store.empty

/-- The store after the follow-up update that references id a and repeats the
unchanged name value bob. -/
def c1afterUpdate : Store :=
  match api.update "m" demoModel c1afterCreate
      [[( "id", JSVal.vStr "a"), ( "name", JSVal.vStr "bob")]] with
  | Except.ok (st, _) => st
  | Except.error _ => c1afterCreate

/-- The stored current record of id a used by the batch-level examples. -/
def c2old : Obj :=
  [( "id", JSVal.vStr "a"), ( "created", JSVal.vNum 5), ( "name", JSVal.vStr "bob")]

/-- An update input that carries the same name value the store already holds. -/
def c2new : Obj := [( "id", JSVal.vStr "a"), ( "name", JSVal.vStr "bob")]

/-- A store satisfying the index invariant before the unchanged-value update. -/
def c2store : Store :=
  { hashes := [( "m:a", c2old)],
    zsets := [( "m:i:created", [ "5:a"]), ( "m:i:name", [ "bob:a"])] }

/-- The batch multiUpdate compiles for the unchanged-value update. -/
def c2image : Image :=
  match queries.multiUpdate "m" demoModel [c2new] [c2old] with
  | Except.ok i => i
  | Except.error _ => { query := [], ids := [] }

/-- A field the spec marks non-mutable (no seed, no indexing, permissive
validators). -/
def fdSecret : FieldDesc :=
  { seed := none, mutable := false, lexical := false,
    validate := fun _ => true, updateValidate := fun _ => true }

/-- A model with the non-mutable field secret besides the defaults. -/
def c4model : Model := [( "id", fdId), ( "created", fdCreated), ( "secret", fdSecret)]

/-- The stored record of id a whose secret field holds the value old. -/
def c4old : Obj :=
  [( "id", JSVal.vStr "a"), ( "created", JSVal.vNum 5), ( "secret", JSVal.vStr "old")]

/-- A store holding that record and its created index entry. -/
def c4store : Store :=
  { hashes := [( "m:a", c4old)], zsets := [( "m:i:created", [ "5:a"])] }

/-- The update input that supplies a new value for the non-mutable field. -/
def c4upd : Obj := [( "id", JSVal.vStr "a"), ( "secret", JSVal.vStr "new")]

/-- The batch multiUpdate compiles for that input. -/
def c4image : Image :=
  match queries.multiUpdate "m" c4model [c4upd] [c4old] with
  | Except.ok i => i
  | Except.error _ => { query := [], ids := [] }

/-- The store after running the whole update pipeline on that input. -/
def c4after : Store :=
  match api.update "m" c4model c4store [c4upd] with
  | Except.ok (st, _) => st
  | Except.error _ => c4store

/-- A store holding the live record id1 with name Oscar and its index token. -/
def c5store : Store :=
  { hashes := [( "m:id1", [( "id", JSVal.vStr "id1"), ( "name", JSVal.vStr "Oscar")])],
    zsets := [( "m:i:name", [formatIndex (JSVal.vStr "Oscar") "id1"])] }

/-- An update input referencing an id with no current record. -/
def c6upd : Obj := [( "id", JSVal.vStr "zz")]

/-- The location field of the README example: seeded with the constant Home. -/
def fdLocation : FieldDesc :=
  { seed := some (JSVal.vStr "Home"), mutable := false, lexical := false,
    validate := fun _ => true, updateValidate := fun _ => true }

/-- A model with only the seeded location field. -/
def c8model : Model := [( "location", fdLocation)]

/-- A caller input in which location is present but bound to the empty
string, a falsy value. -/
def c8data : Obj := [( "location", JSVal.vStr "")]


/-- The store and id list the create pipeline produces from the empty input
record on the demo model: the seeds fill id and created, name stays absent. -/
def c7expected : Store :=
  { hashes := [( "m:a", [( "id", JSVal.vStr "a"), ( "created", JSVal.vNum 5)])],
    zsets := [( "m:i:created", [ "5:a"])] }

/-! ### Helper lemmas about the embedding -/

/-- Concatenation of strings concatenates their character data. -/
theorem strDataAppend (a b : String) : (a ++ b).data = a.data ++ b.data := by
  cases a
  cases b
  rfl

/-- No character case-folds to the separator. -/
theorem toLowerCase_eq_colon {c : Char} (h : toLowerCase c = ':') : c = ':' := by
  unfold toLowerCase at h
  cases hf : lowerPairs.find? (fun p => p.1 == c) with
  | none => simpa [hf] using h
  | some p =>
    have hp : p ∈ lowerPairs := List.mem_of_find?_eq_some hf
    have hall : ∀ q ∈ lowerPairs, q.2 ≠ ':' := by decide
    rw [hf] at h
    simp only [Option.map_some', Option.getD_some] at h
    exact absurd h (hall p hp)

/-- Normalized values never contain the separator: the stripping regular
expression removes it and case folding cannot reintroduce it. -/
theorem colon_not_mem_normalizeValue (s : String) : ':' ∉ (normalizeValue s).data := by
  intro hmem
  have hmem2 : ':' ∈ (s.data.filter (fun c => !strippedChar c)).map toLowerCase := hmem
  rcases List.mem_map.mp hmem2 with ⟨c, hc, hlow⟩
  have hcc := toLowerCase_eq_colon hlow
  subst hcc
  have hfc := List.of_mem_filter hc
  exact absurd hfc (by decide)

/-- indexOf finds the separator right after a separator-free lead. -/
theorem sepIdx_append (l1 l2 : List Char) (h : ':' ∉ l1) :
    sepIdx (l1 ++ ':' :: l2) = some l1.length := by
  induction l1 with
  | nil => simp [sepIdx]
  | cons c rest ih =>
    have hc : c ≠ ':' := fun hcc => h (hcc ▸ List.mem_cons_self c rest)
    have hr : ':' ∉ rest := fun hrr => h (List.mem_cons_of_mem c hrr)
    rw [List.cons_append]
    unfold sepIdx
    rw [if_neg hc, ih hr]
    simp

/-- Dropping past a distinguished element recovers the tail. -/
theorem drop_append_cons (l1 l2 : List Char) (c : Char) :
    (l1 ++ c :: l2).drop (l1.length + 1) = l2 := by
  induction l1 with
  | nil => rfl
  | cons a rest ih =>
    rw [List.cons_append, List.length_cons, List.drop_succ_cons]
    exact ih

/-- Reading back the key just written. -/
theorem lookupA_setA_self {α : Type} (l : List (String × α)) (k : String) (v : α) :
    lookupA (setA l k v) k = some v := by
  induction l with
  | nil => simp [setA, lookupA]
  | cons kv rest ih =>
    unfold setA
    by_cases h : kv.1 = k
    · rw [if_pos h]
      unfold lookupA
      rw [if_pos rfl]
    · rw [if_neg h]
      unfold lookupA
      rw [if_neg h]
      exact ih

/-- Writing one key leaves the others unchanged. -/
theorem lookupA_setA_ne {α : Type} (l : List (String × α)) (kk k : String) (v : α)
    (h : kk ≠ k) : lookupA (setA l kk v) k = lookupA l k := by
  induction l with
  | nil => simp [setA, lookupA, h]
  | cons kv rest ih =>
    unfold setA
    by_cases h2 : kv.1 = kk
    · rw [if_pos h2]
      unfold lookupA
      rw [if_neg h, if_neg (h2 ▸ h : ¬kv.1 = k)]
    · rw [if_neg h2]
      unfold lookupA
      by_cases h3 : kv.1 = k
      · rw [if_pos h3, if_pos h3]
      · rw [if_neg h3, if_neg h3]
        exact ih

/-- Folding writes of unrelated keys does not disturb a lookup. -/
theorem lookupA_foldl_setA_not_mem {α : Type} (fs : List (String × α)) (k : String)
    (h : ∀ p ∈ fs, p.1 ≠ k) (acc : List (String × α)) :
    lookupA (fs.foldl (fun h2 kv => setA h2 kv.1 kv.2) acc) k = lookupA acc k := by
  induction fs generalizing acc with
  | nil => rfl
  | cons kv rest ih =>
    rw [List.foldl_cons]
    rw [ih (fun p hp => h p (List.mem_cons_of_mem kv hp)) (setA acc kv.1 kv.2)]
    exact lookupA_setA_ne acc kv.1 k kv.2 (h kv (List.mem_cons_self kv rest))

/-- HMSET semantics on one key: when the written fields carry each key once,
a field looked up in the input is looked up unchanged in the merged hash. -/
theorem lookupA_foldl_setA_get {α : Type} (fs : List (String × α))
    (hnd : (fs.map Prod.fst).Nodup) (k : String) (v : α)
    (hget : lookupA fs k = some v) (acc : List (String × α)) :
    lookupA (fs.foldl (fun h2 kv => setA h2 kv.1 kv.2) acc) k = some v := by
  induction fs generalizing acc with
  | nil => exact absurd hget (by simp [lookupA])
  | cons kv rest ih =>
    rw [List.map_cons, List.nodup_cons] at hnd
    rw [List.foldl_cons]
    unfold lookupA at hget
    by_cases h : kv.1 = k
    · subst h
      rw [if_pos rfl] at hget
      injection hget with hv
      have hnm : ∀ p ∈ rest, p.1 ≠ kv.1 := by
        intro p hp hpk
        exact hnd.1 (hpk ▸ List.mem_map_of_mem Prod.fst hp)
      rw [lookupA_foldl_setA_not_mem rest kv.1 hnm (setA acc kv.1 kv.2),
        lookupA_setA_self acc kv.1 kv.2, hv]
    · rw [if_neg h] at hget
      exact ih hnd.2 hget (setA acc kv.1 kv.2)

/-- Sorted-set commands do not touch the hash table. -/
theorem runCmd_zop_hashes (st : Store) (c : Cmd) (h : isZop c = true) :
    (runCmd st c).hashes = st.hashes := by
  cases c with
  | hmset key fields => simp [isZop] at h
  | del key => simp [isZop] at h
  | zadd key token => rfl
  | zrem key token => rfl

/-- A batch of sorted-set commands leaves every hash record unchanged. -/
theorem runCmds_zops_hashes (cmds : List Cmd) (h : ∀ c ∈ cmds, isZop c = true)
    (st : Store) : (runCmds st cmds).hashes = st.hashes := by
  induction cmds generalizing st with
  | nil => rfl
  | cons c rest ih =>
    unfold runCmds
    rw [ih (fun x hx => h x (List.mem_cons_of_mem c hx)) (runCmd st c)]
    exact runCmd_zop_hashes st c (h c (List.mem_cons_self c rest))

/-- Every command multiIndex builds is a sorted-set command. -/
theorem multiIndex_isZop (name : String) (model : Model) (hash : Obj) (r : Bool) :
    ∀ c ∈ queries.multiIndex name model hash r, isZop c = true := by
  intro c hc
  unfold queries.multiIndex at hc
  rw [List.mem_filterMap] at hc
  obtain ⟨prop, _, hp⟩ := hc
  revert hp
  cases lookupA hash prop with
  | none => intro hp; exact Option.noConfusion hp
  | some v =>
    intro hp
    have hp2 : (if JSVal.truthy v = true
        then some (queries.index name prop (hashId hash) v r) else none) = some c := hp
    cases ht : JSVal.truthy v with
    | false =>
      rw [if_neg (by simp [ht])] at hp2
      exact Option.noConfusion hp2
    | true =>
      rw [if_pos ht] at hp2
      injection hp2 with hpc
      rw [← hpc]
      cases r <;> rfl

/-- A kept or seeded binding always carries the model field name. -/
theorem seedField_key (data : Obj) (kv : String × FieldDesc) (p : String × JSVal)
    (h : seedField data kv = some p) : p.1 = kv.1 := by
  unfold seedField at h
  revert h
  cases lookupA data kv.1 with
  | some v =>
    intro h
    have h2 : (if JSVal.truthy v = true then some (kv.1, v)
        else match kv.2.seed with
          | some s => some (kv.1, s)
          | none => none) = some p := h
    cases ht : JSVal.truthy v with
    | true =>
      rw [if_pos ht] at h2
      injection h2 with h3
      rw [← h3]
    | false =>
      rw [if_neg (by simp [ht])] at h2
      revert h2
      cases kv.2.seed with
      | some s =>
        intro h2
        injection h2 with h3
        rw [← h3]
      | none => intro h2; exact Option.noConfusion h2
  | none =>
    intro h
    revert h
    cases kv.2.seed with
    | some s =>
      intro h
      injection h with h3
      rw [← h3]
    | none => intro h; exact Option.noConfusion h

/-- Seeding only ever emits declared model fields; a key matching none of the
model fields reads back as undefined. -/
theorem seedHash_lookup_not_mem (model : Model) (data : Obj) (k : String)
    (h : ∀ p ∈ model, p.1 ≠ k) : lookupA (seedHash model data) k = none := by
  induction model with
  | nil => rfl
  | cons kv rest ih =>
    unfold seedHash
    rw [List.filterMap_cons]
    cases hsf : seedField data kv with
    | none => exact ih (fun p hp => h p (List.mem_cons_of_mem kv hp))
    | some p =>
      unfold lookupA
      rw [if_neg (by rw [seedField_key data kv p hsf]
                     exact h kv (List.mem_cons_self kv rest))]
      exact ih (fun q hq => h q (List.mem_cons_of_mem kv hq))

/-! ### Claim theorems -/

/-- C9: for every field value v and every record id i, decoding the encoded
index token recovers the id exactly, parseIndex (formatIndex v i) = i:
normalization strips every separator occurrence from the value and decoding
takes the substring after the first separator occurrence of the token. -/
theorem C9_parse_format_roundtrip (v : JSVal) (id : String) :
    parseIndex (formatIndex v id) = id := by
  have hdata : (formatIndex v id).data
      = (normalizeValue (JSVal.toStr v)).data ++ ':' :: id.data := by
    unfold formatIndex
    rw [strDataAppend, strDataAppend, List.append_assoc]
    rfl
  unfold parseIndex
  rw [hdata]
  rw [sepIdx_append (normalizeValue (JSVal.toStr v)).data id.data
    (colon_not_mem_normalizeValue (JSVal.toStr v))]
  show String.mk (((normalizeValue (JSVal.toStr v)).data ++ ':' :: id.data).drop
    ((normalizeValue (JSVal.toStr v)).data.length + 1)) = id
  rw [drop_append_cons]

/-- C4 (amended): the compiled update batch takes every field present in the
new record from the new record, also for fields marked non-mutable: after
executing the batch for update input hash against stored record old, the
stored value of such a field equals the value supplied in hash, with no
copying forward from old.  The mutability flag is never consulted. -/
theorem C4_new_value_stored (name : String) (model : Model) (st : Store)
    (hash old : Obj) (k : String) (v : JSVal) (fd : FieldDesc) (image : Image)
    (hfd : lookupA model k = some fd) (hmut : fd.mutable = false)
    (hnd : (hash.map Prod.fst).Nodup) (hget : lookupA hash k = some v)
    (himg : queries.multiUpdate name model [hash] [old] = Except.ok image) :
    lookupA (hashGetD (runCmds st image.query) (formatKey name (hashId hash) none)) k
      = some v := by
  have h2 : queries.multiUpdate name model [hash] [old] =
      Except.ok (Image.mk
        ((queries.create name (hashId hash) hash ::
            queries.multiIndex name model hash false) ++
          (queries.multiIndex name model (pruneObject hash old) true ++ []))
        [hashId hash]) := rfl
  rw [h2] at himg
  injection himg with himg2
  subst himg2
  have hz : ∀ c ∈ queries.multiIndex name model hash false ++
      (queries.multiIndex name model (pruneObject hash old) true ++ []),
      isZop c = true := by
    intro c hc
    rcases List.mem_append.mp hc with h1 | h1
    · exact multiIndex_isZop name model hash false c h1
    · rcases List.mem_append.mp h1 with h3 | h3
      · exact multiIndex_isZop name model (pruneObject hash old) true c h3
      · exact absurd h3 (List.not_mem_nil c)
  show lookupA (hashGetD
    (runCmds (runCmd st (queries.create name (hashId hash) hash))
      (queries.multiIndex name model hash false ++
        (queries.multiIndex name model (pruneObject hash old) true ++ [])))
    (formatKey name (hashId hash) none)) k = some v
  unfold hashGetD
  rw [runCmds_zops_hashes _ hz (runCmd st (queries.create name (hashId hash) hash))]
  show lookupA ((lookupA
    (setA st.hashes (formatKey name (hashId hash) none)
      (hash.foldl (fun h kv => setA h kv.1 kv.2)
        (hashGetD st (formatKey name (hashId hash) none))))
    (formatKey name (hashId hash) none)).getD []) k = some v
  rw [lookupA_setA_self]
  show lookupA (hash.foldl (fun h kv => setA h kv.1 kv.2)
    (hashGetD st (formatKey name (hashId hash) none))) k = some v
  exact lookupA_foldl_setA_get hash hnd k v hget _

/-- C6: for every update call that passes schema validation, if any
referenced id has no current record in the store (the read-before-write
fetch returns an absent marker for it), the whole call fails with the
not-found error and no write batch is executed: the error return carries no
new store, so the store is left exactly as it was. -/
theorem C6_update_missing_id_fails (name : String) (model : Model) (st : Store)
    (data : List Obj) (hval : schemaCheck model true data = true)
    (hmiss : ∃ h ∈ data, lookupA st.hashes (formatKey name (hashId h) none) = none) :
    api.update name model st data = Except.error JsErr.notFound := by
  have ht : testArray (multiGetRun st name (data.map hashId)) = true := by
    obtain ⟨h, hm, hn⟩ := hmiss
    unfold testArray multiGetRun
    rw [List.map_map, List.any_eq_true]
    refine ⟨lookupA st.hashes (formatKey name (hashId h) none), ?_, ?_⟩
    · exact List.mem_map.mpr ⟨h, hm, rfl⟩
    · rw [hn]
      rfl
  simp [api.update, hval, ht]

/-- Reading a cons cell of an association list. -/
theorem lookupA_cons {α : Type} (kv : String × α) (l : List (String × α)) (k : String) :
    lookupA (kv :: l) k = if kv.1 = k then some kv.2 else lookupA l k := rfl

/-- What seeding stores for a declared field is exactly the value component
of the seedField decision for that field. -/
theorem seedHash_lookup_eq (model : Model) (data : Obj) (k : String) (fd : FieldDesc)
    (hnd : (model.map Prod.fst).Nodup) (hfd : lookupA model k = some fd) :
    lookupA (seedHash model data) k = Option.map Prod.snd (seedField data (k, fd)) := by
  induction model with
  | nil => exact absurd hfd (by simp [lookupA])
  | cons kv rest ih =>
    rw [List.map_cons, List.nodup_cons] at hnd
    rw [lookupA_cons] at hfd
    by_cases h : kv.1 = k
    · rw [if_pos h] at hfd
      injection hfd with hfd2
      have hkv : kv = (k, fd) := by rw [← h, ← hfd2]
      have hnm : ∀ p ∈ rest, p.1 ≠ k := by
        intro p hp hpk
        have hmm : p.1 ∈ rest.map Prod.fst := List.mem_map_of_mem Prod.fst hp
        rw [hpk, ← h] at hmm
        exact hnd.1 hmm
      rw [← hkv]
      unfold seedHash
      rw [List.filterMap_cons]
      cases hsf : seedField data kv with
      | none => exact seedHash_lookup_not_mem rest data k hnm
      | some p =>
        rw [lookupA_cons, if_pos ((seedField_key data kv p hsf).trans h)]
        rfl
    · rw [if_neg h] at hfd
      unfold seedHash
      rw [List.filterMap_cons]
      cases hsf : seedField data kv with
      | none => exact ih hnd.2 hfd
      | some p =>
        rw [lookupA_cons, if_neg (by rw [seedField_key data kv p hsf]; exact h)]
        exact ih hnd.2 hfd

/-- C8 (amended): seeding keeps a caller-supplied field verbatim only when
its value is truthy; a field whose input value is falsy (the empty string,
zero, false) or absent is treated alike: it is filled from the model seed
when one exists and dropped otherwise. -/
theorem C8_seed_on_falsy (model : Model) (data : Obj) (k : String) (fd : FieldDesc)
    (hnd : (model.map Prod.fst).Nodup) (hfd : lookupA model k = some fd) :
    lookupA (seedHash model data) k =
      (match lookupA data k with
       | some v => if JSVal.truthy v then some v else fd.seed
       | none => fd.seed) := by
  rw [seedHash_lookup_eq model data k fd hnd hfd]
  show Option.map Prod.snd
    (match lookupA data k with
     | some v =>
       if JSVal.truthy v then some (k, v)
       else
         match fd.seed with
         | some s => some (k, s)
         | none => none
     | none =>
       match fd.seed with
       | some s => some (k, s)
       | none => none) = _
  cases hd : lookupA data k with
  | none => cases fd.seed <;> simp
  | some v => cases htv : JSVal.truthy v <;> cases fd.seed <;> simp [htv]

/-- C10: the seeded hash stored by create contains only declared model
fields; a caller-supplied field absent from the model is silently dropped by
the seeding step, with no error. -/
theorem C10_seed_drops_unknown_fields (model : Model) (data : Obj) (k : String)
    (h : k ∉ model.map Prod.fst) : lookupA (seedHash model data) k = none :=
  seedHash_lookup_not_mem model data k
    (fun p hp hpk => h (hpk ▸ List.mem_map_of_mem Prod.fst hp))

/-- C1: the index-consistency invariant fails on the code: after create of a
record with name bob (assigned id a) followed by an update that repeats the
same name value, record a is live with name bob while its encoded token is
absent from the name index — the update batch retracts the very token it
just added, so the token set does not equal the encoded live set. -/
theorem C1_index_consistency_cex :
    lookupA (hashGetD c1afterUpdate (formatKey "m" "a" none)) "name"
        = some (JSVal.vStr "bob") ∧
      formatIndex (JSVal.vStr "bob") "a"
        ∉ (lookupA c1afterUpdate.zsets (formatKey "m" "name" (some SYMBOLS.idx))).getD [] := by
  decide

/-- C2: for a lexical field whose value is identical in the old and new
record, the compiled batch is the hmset, then the token addition, then the
token retraction: the retraction is ordered after the addition of the same
token and takes effect, leaving the index without the token instead of the
required no-op. -/
theorem C2_retract_after_add :
    c2image.query =
        [Cmd.hmset "m:a" [( "id", JSVal.vStr "a"), ( "name", JSVal.vStr "bob")],
         Cmd.zadd "m:i:name" (formatIndex (JSVal.vStr "bob") "a"),
         Cmd.zrem "m:i:name" (formatIndex (JSVal.vStr "bob") "a")] ∧
      lookupA (runCmds c2store c2image.query).zsets "m:i:name" = some [] := by
  decide

/-- C3: compiling a removal throws instead of emitting commands: in
createAndIndex the remove parameter shadows the del-command builder, so
multiRemove calls the boolean true as a function and raises a TypeError on
the very first record, producing neither the del nor any zrem command. -/
theorem C3_remove_type_error :
    queries.multiRemove "m" demoModel [c2old] = Except.error JsErr.typeError := rfl

/-- C4: the claim fails on the code: updating record a, whose non-mutable
field secret holds old, with the input value new leaves the stored value
equal to new, not old — nothing is copied forward from the old record. -/
theorem C4_nonmutable_overwritten_cex :
    lookupA (hashGetD c4after "m:a") "secret" = some (JSVal.vStr "new") ∧
      lookupA (hashGetD c4after "m:a") "secret" ≠ some (JSVal.vStr "old") := by
  decide

/-- C4 witness: the amended statement applied at the concrete store and
update input of the counterexample. -/
theorem C4_new_value_stored_witness :
    lookupA (hashGetD (runCmds c4store c4image.query) (formatKey "m" (hashId c4upd) none))
      "secret" = some (JSVal.vStr "new") :=
  C4_new_value_stored "m" c4model c4store c4upd c4old "secret" (JSVal.vStr "new")
    fdSecret c4image rfl rfl (by decide) rfl rfl

/-- C5: search does not normalize the term before building the range bounds:
with the token for record id1 with name Oscar in the index, the search term
Osc returns the empty list although the normalized stored value oscar starts
with the normalized term osc and the record is live with that name; the
already-lower-cased term osc does match, showing that exactly the term
normalization is missing. -/
theorem C5_search_term_not_normalized :
    api.search "m" c5store "name" "Osc" = [] ∧
      List.isPrefixOf (normalizeValue "Osc").data (normalizeValue "oscar").data = true ∧
      lookupA (hashGetD c5store "m:id1") "name" = some (JSVal.vStr "Oscar") ∧
      api.search "m" c5store "name" "osc" = [ "id1"] := by
  decide

/-- C6 witness: an update referencing the unknown id zz on the empty store
fails with the not-found error. -/
theorem C6_update_missing_id_fails_witness :
    api.update "m" demoModel Store.empty [c6upd] = Except.error JsErr.notFound :=
  C6_update_missing_id_fails "m" demoModel Store.empty [c6upd] (by decide)
    ⟨c6upd, by decide, by decide⟩

/-- C7: create validates against the update-time validators, not the
create-time ones: the empty input record seeded on the demo model fails the
create-time schema (name is required at create time), yet the create call
succeeds and issues its hmset and zadd commands, returning the new id. -/
theorem C7_create_skips_create_validators :
    schemaCheck demoModel false (seedHashes demoModel [([] : Obj)]) = false ∧
      api.create "m" demoModel Store.empty [([] : Obj)] =
        Except.ok (c7expected, [ "a"]) :=
  ⟨rfl, rfl⟩

/-- C8: the claim fails on the code: the field location is explicitly present
in the caller input with the falsy empty-string value, yet seeding overwrites
it with the model seed Home instead of keeping it verbatim. -/
theorem C8_falsy_value_reseeded_cex :
    lookupA (seedHash c8model c8data) "location" ≠ some (JSVal.vStr "") ∧
      lookupA (seedHash c8model c8data) "location" = some (JSVal.vStr "Home") := by
  decide

/-- C8 witness: the amended statement applied at the counterexample input. -/
theorem C8_seed_on_falsy_witness :
    lookupA (seedHash c8model c8data) "location" = some (JSVal.vStr "Home") :=
  C8_seed_on_falsy c8model c8data "location" fdLocation (by decide) rfl

/-- C10 witness: a caller field hacker absent from the demo model is dropped
by seeding. -/
theorem C10_seed_drops_unknown_fields_witness :
    lookupA (seedHash demoModel [( "hacker", JSVal.vStr "x")]) "hacker" = none :=
  C10_seed_drops_unknown_fields demoModel [( "hacker", JSVal.vStr "x")] "hacker" (by decide)

end Redilex
